import Mathlib

/-!
Shallow embedding of `check_versions.py` from python-package-version-manager.

Modelling conventions:
* A pip/JSON package record is a JSON object with string values, embedded as an
  association list `Record := List (String × String)` in field order.  Python
  raises `KeyError` on a missing key; functions that index a record therefore
  bind the lookup in `Option`, and a `none` overall result models an uncaught
  exception escaping the function.
* The external world (child processes) is an oracle `exec : List String → ProcResult`
  mapping the constructed command line to its exit code / stdout / stderr.
  `subprocess.run(..., check=True)` raising `CalledProcessError` on a nonzero
  exit is the `exitCode ≠ 0` branch.
* Functions that print diagnostics also return the list of printed messages;
  functions that spawn processes also return the list of command lines invoked,
  so that "how many times was the command run" is a provable statement.
* The filesystem is a pair of a directory list and a file map; file contents of
  backup snapshots are the structured value passed to `json.dump` (for the
  association-list records considered here, `json.loads ∘ json.dump` is the
  identity, so the snapshot content is embedded structurally).
* The thread pool of `get_package_descriptions_parallel` is embedded by the
  list of submitted (future id, package name) pairs; `as_completed` yields
  those pairs in an arbitrary order, quantified as any permutation of the
  submission list.  Per-future nondeterminism (each worker thread sees its own
  process responses, and `future.result()` may in principle raise) is the pair
  of oracles `exec : Nat → List String → ProcResult` and `raises : Nat → Bool`.
* `str.strip()` is embedded as `String.trim` and `str.lower()` as
  `String.toLower`; string comparison is code-point lexicographic in both
  Python and Lean's `String` order.
-/

namespace CheckVersions

/-- A JSON object with string values, in field order (a pip package record). -/
abbrev Record := List (String × String)

/-- `r[k]` as an `Option`: the value of the first field named `k`. -/
def lookupField (r : Record) (k : String) : Option String :=
  (r.find? (fun kv => kv.1 == k)).map (fun kv => kv.2)

/-- Total field access, defaulting to `""`; used only where theorems separately
hypothesise that the key is present. -/
def fieldD (r : Record) (k : String) : String :=
  (lookupField r k).getD ""

/-- Outcome of one child-process invocation: exit code, captured stdout, stderr. -/
structure ProcResult where
  exitCode : Nat
  stdout : String
  stderr : String

/-- `[sys.executable, '-m', 'pip']`, the fixed command prefix. -/
def pipBase : List String := ["python", "-m", "pip"]

/-- The command line `run_pip_command` constructs: base ++ command, then
`--user` appended when `global_packages` is false, then the args. -/
def buildCmd (command : List String) (globalPackages : Bool) (args : List String) :
    List String :=
  pipBase ++ command ++ (if globalPackages then [] else ["--user"]) ++ args

/-- Result of `run_pip_command`: the returned value (`none` for the `return None`
error path), the diagnostics printed, and the command lines actually executed. -/
structure PipRun where
  result : Option String
  printed : List String
  invoked : List (List String)

/-- `run_pip_command(command, args, global_packages)`: builds the command line,
runs it once; on exit 0 returns stdout, on nonzero exit (a `CalledProcessError`)
prints the stderr diagnostic and returns `None`. -/
def run_pip_command (command : List String) (args : List String)
    (globalPackages : Bool) (exec : List String → ProcResult) : PipRun :=
  let cmd := buildCmd command globalPackages args
  let res := exec cmd
  if res.exitCode = 0 then
    { result := some res.stdout, printed := [], invoked := [cmd] }
  else
    { result := none,
      printed := ["\nError executing pip command: " ++ res.stderr],
      invoked := [cmd] }

/-- The description sentinel. -/
def sentinel : String := "No description available"

/-- Scan `pip show` output: the first line starting with `"Summary: "`, with
that 9-character head dropped and the remainder stripped. -/
def summaryOf (output : String) : Option String :=
  List.findSome?
    (fun line =>
      if line.startsWith "Summary: " then some ((line.drop 9).trim) else none)
    (output.splitOn "\n")

/-- `get_package_description(package_name)`: run `pip show`, and if the output
is truthy (non-`None` and non-empty) return the first summary line found;
otherwise the sentinel. -/
def get_package_description (packageName : String)
    (exec : List String → ProcResult) : String :=
  match (run_pip_command ["show"] [packageName] true exec).result with
  | some output =>
      if output = "" then sentinel
      else
        match summaryOf output with
        | some d => d
        | none => sentinel
  | none => sentinel

/-- Helper numbering the submitted futures from `n` upward. -/
def f2pAux : Nat → List String → List (Nat × String)
  | _, [] => []
  | n, x :: xs => (n, x) :: f2pAux (n + 1) xs

/-- The `future_to_package` dict comprehension: one `executor.submit` call per
element of `packages` (futures are distinct objects, so nothing collapses),
each future mapped to the `'name'` field of its record. -/
def future_to_package (packages : List Record) : List (Nat × String) :=
  f2pAux 0 (packages.map (fun p => fieldD p "name"))

/-- Python dict assignment `m[k] = v`: replace the value in place if the key
exists, else append the pair. -/
def dinsert (m : List (String × String)) (k v : String) : List (String × String) :=
  if m.any (fun kv => kv.1 == k) then
    m.map (fun kv => if kv.1 == k then (k, v) else kv)
  else m ++ [(k, v)]

/-- Key membership in an association list with string keys. -/
def hasKey (m : List (String × String)) (k : String) : Bool :=
  m.any (fun kv => kv.1 == k)

/-- `get_package_descriptions_parallel(packages)`: each submitted future `i`
computes `get_package_description` for its name against its thread's process
oracle `exec i`; `as_completed` yields the (future, name) pairs in an arbitrary
order `completed` — quantified in the theorems as any permutation of
`future_to_package packages` — and each result — or the sentinel, if
`future.result()` raised (`raises i`) — is stored into the dict under the
name. -/
def get_package_descriptions_parallel
    (exec : Nat → List String → ProcResult) (raises : Nat → Bool)
    (completed : List (Nat × String)) : List (String × String) :=
  completed.foldl
    (fun acc fp =>
      dinsert acc fp.2
        (if raises fp.1 then sentinel
         else get_package_description fp.2 (exec fp.1)))
    []

/-- The filesystem fragment the tool touches: existing directories and the
backup files with their structured JSON content. -/
structure FS where
  dirs : List String
  files : List (String × List Record)

/-- Read a file's decoded content; the most recent write to a path wins. -/
def FS.readFile (fs : FS) (p : String) : Option (List Record) :=
  (fs.files.find? (fun f => f.1 == p)).map (fun f => f.2)

/-- The fixed backup directory name. -/
def backupDirName : String := "package_backups"

/-- The snapshot path for a given timestamp string. -/
def backupPath (timestamp : String) : String :=
  backupDirName ++ "/package_versions_" ++ timestamp ++ ".json"

/-- `create_backup(packages)`: ensure the backup directory exists; if the
package list is truthy (non-empty), write the list itself (`json.dump(packages, ...)`)
to the timestamped path and return the path; on an `IOError` during the write
(`writeFails`), or for an empty list, return `None`. -/
def create_backup (fs : FS) (timestamp : String) (packages : List Record)
    (writeFails : Bool) : FS × Option String :=
  let fs1 : FS :=
    if fs.dirs.contains backupDirName then fs
    else { fs with dirs := backupDirName :: fs.dirs }
  let backupFile := backupPath timestamp
  if packages.isEmpty then (fs1, none)
  else if writeFails then (fs1, none)
  else ({ fs1 with files := (backupFile, packages) :: fs1.files }, some backupFile)

/-- One progress-bar interaction per package: an `advance`, or a failure
description set on the task. -/
inductive ProgressEvent where
  | advance
  | failDesc (msg : String)
deriving DecidableEq, Repr

/-- The loop of `update_packages`: for each record, read `name` and
`latest_version` (a missing key raises, giving `none` overall), run
`pip install --upgrade name==version`, and record the progress event —
`failDesc` when the invocation returned `None`, `advance` otherwise.  Returns
the command lines invoked and the progress events, in order. -/
def update_packages : List Record → Bool → (List String → ProcResult) →
    Option (List (List String) × List ProgressEvent)
  | [], _, _ => some ([], [])
  | p :: rest, g, exec => do
      let name ← lookupField p "name"
      let version ← lookupField p "latest_version"
      let run := run_pip_command ["install", "--upgrade"]
        [name ++ "==" ++ version] g exec
      let ev := match run.result with
        | none => ProgressEvent.failDesc ("Failed to update " ++ name)
        | some _ => ProgressEvent.advance
      let (trs, evs) ← update_packages rest g exec
      some (run.invoked ++ trs, ev :: evs)

/-- The loop of `restore_packages`: for each record of the decoded backup,
read `name` and `version`, run `pip install name==version` (always global
scope — no `--user`), and record the progress event. -/
def restoreLoop : List Record → (List String → ProcResult) →
    Option (List (List String) × List ProgressEvent)
  | [], _ => some ([], [])
  | p :: rest, exec => do
      let name ← lookupField p "name"
      let version ← lookupField p "version"
      let run := run_pip_command ["install"] [name ++ "==" ++ version] true exec
      let ev := match run.result with
        | none => ProgressEvent.failDesc ("Failed to restore " ++ name)
        | some _ => ProgressEvent.advance
      let (trs, evs) ← restoreLoop rest exec
      some (run.invoked ++ trs, ev :: evs)

/-- `restore_packages(backup_file)`: `readResult` is the decoded content of the
file (`none` models `IOError`/`JSONDecodeError`, which prints and returns
`False`).  On a successful read, run the restore loop and return `True` with
its invocation trace and progress events. -/
def restore_packages (readResult : Option (List Record))
    (exec : List String → ProcResult) :
    Option (Bool × List (List String) × List ProgressEvent) :=
  match readResult with
  | none => some (false, [], [])
  | some packages =>
      (restoreLoop packages exec).map (fun te => (true, te.1, te.2))

/-- A parsed `packaging.requirements.Requirement`: the distribution name and
the (never-evaluated) constraint text. -/
structure Req where
  name : String
  constraint : String
deriving DecidableEq, Repr

/-- `parse_requirements_file`: keep lines whose stripped form is non-empty and
that do not start (unstripped) with `#`; parse each stripped line with the
external `Requirement` grammar (`parseReq` oracle).  Any parse error raises
inside the comprehension, and the surrounding `try` turns it into `[]`. -/
def parse_requirements_file (lines : List String)
    (parseReq : String → Option Req) : List Req :=
  let kept := lines.filter (fun l => !(l.trim == "") && !(l.startsWith "#"))
  match kept.mapM (fun l => parseReq l.trim) with
  | some reqs => reqs
  | none => []

/-- The data computation of `check_project_packages`, after
`parse_requirements_file`, `get_all_packages` and `get_outdated_packages` have
produced `reqs`, `allInstalled` and `outdated`: filter both lists to packages
whose lowercased name is among the lowercased requirement names; when no
installed package matches, print a message and return `None` (no output). -/
def check_project_packages (reqs : List Req) (allInstalled : List Record)
    (outdated : List Record) : Option (List Record × List Record) :=
  let requiredLower := reqs.map (fun r => r.name.toLower)
  let projectPackages := allInstalled.filter
    (fun p => requiredLower.contains (fieldD p "name").toLower)
  let projectOutdated := outdated.filter
    (fun p => requiredLower.contains (fieldD p "name").toLower)
  if projectPackages.isEmpty then none
  else some (projectPackages, projectOutdated)

/-- One rendered table row: the five cell strings passed to `table.add_row`. -/
structure Row where
  nameCell : String
  currentCell : String
  latestCell : String
  statusCell : String
  descriptionCell : String
deriving DecidableEq, Repr

/-- Key membership in the `outdated_map` association list. -/
def hasKeyR (m : List (String × Record)) (k : String) : Bool :=
  m.any (fun kv => kv.1 == k)

/-- Lookup in the `outdated_map` association list. -/
def lookupR (m : List (String × Record)) (k : String) : Option Record :=
  (m.find? (fun kv => kv.1 == k)).map (fun kv => kv.2)

/-- The lowercased name a record is sorted by (`key=lambda x: x['name'].lower()`). -/
def nameLower (p : Record) : String := (fieldD p "name").toLower

/-- The comparison `sorted` uses, as a Boolean relation. -/
def byNameLower (a b : Record) : Bool := decide (nameLower a ≤ nameLower b)

/-- The row added for an outdated package: every cell but the description is
wrapped in the bright-cyan highlight, the latest version is taken from
`outdated_map[name]['latest_version']`, and the status is the red `Outdated`
text.  (The map lookup cannot miss — callers filter on key membership first —
so a missing key is rendered as `""` here.) -/
def mkOutdatedRow (om : List (String × Record)) (p : Record) : Row :=
  let name := fieldD p "name"
  let current := fieldD p "version"
  let description := (lookupField p "description").getD sentinel
  let latest := match lookupR om name with
    | some q => fieldD q "latest_version"
    | none => ""
  { nameCell := "[black on bright_cyan]" ++ name ++ "[/]"
    currentCell := "[black on bright_cyan]" ++ current ++ "[/]"
    latestCell := "[black on bright_cyan]" ++ latest ++ "[/]"
    statusCell := "[black on bright_cyan]" ++ "[red]Outdated[/red]" ++ "[/]"
    descriptionCell := description }

/-- The row added for an up-to-date package: plain cells, the current version
shown in both version columns, and the green `Up to date` status. -/
def mkUptodateRow (p : Record) : Row :=
  let name := fieldD p "name"
  let current := fieldD p "version"
  let description := (lookupField p "description").getD sentinel
  { nameCell := name
    currentCell := current
    latestCell := current
    statusCell := "[green]Up to date[/green]"
    descriptionCell := description }

/-- `display_version_table(console, all_packages, outdated_map)`: with no
packages, print a message and add no rows; otherwise sort all packages by
lowercased name, split into those whose name is a key of `outdated_map` and the
rest, and add all outdated rows before all up-to-date rows. -/
def display_version_table (allPackages : List Record)
    (outdatedMap : List (String × Record)) : List Row :=
  if allPackages.isEmpty then []
  else
    let sortedPackages := allPackages.mergeSort byNameLower
    let outdatedPkgs := sortedPackages.filter
      (fun p => hasKeyR outdatedMap (fieldD p "name"))
    let uptodatePkgs := sortedPackages.filter
      (fun p => !(hasKeyR outdatedMap (fieldD p "name")))
    outdatedPkgs.map (mkOutdatedRow outdatedMap) ++ uptodatePkgs.map mkUptodateRow


/-! ### Helper lemmas -/

lemma mem_f2pAux {k : String} : ∀ (xs : List String) (n : Nat),
    (∃ i, (i, k) ∈ f2pAux n xs) ↔ k ∈ xs := by
  intro xs
  induction xs with
  | nil => intro n; simp [f2pAux]
  | cons x xs ih =>
      intro n
      simp only [f2pAux, List.mem_cons]
      constructor
      · rintro ⟨i, hi | hi⟩
        · simp only [Prod.mk.injEq] at hi
          exact Or.inl hi.2
        · exact Or.inr ((ih (n + 1)).1 ⟨i, hi⟩)
      · rintro (rfl | hk)
        · exact ⟨n, Or.inl rfl⟩
        · obtain ⟨i, hi⟩ := (ih (n + 1)).2 hk
          exact ⟨i, Or.inr hi⟩

lemma f2pAux_length : ∀ (xs : List String) (n : Nat),
    (f2pAux n xs).length = xs.length := by
  intro xs
  induction xs with
  | nil => intro n; rfl
  | cons x xs ih => intro n; simp [f2pAux, ih]

lemma mem_keys_dinsert {m : List (String × String)} {k v0 k' : String} :
    (∃ v, (k', v) ∈ dinsert m k v0) ↔ (∃ v, (k', v) ∈ m) ∨ k' = k := by
  unfold dinsert
  by_cases h : m.any (fun kv => kv.1 == k) = true
  · rw [if_pos h]
    constructor
    · rintro ⟨v, hv⟩
      obtain ⟨⟨a, b⟩, hab, hf⟩ := List.mem_map.1 hv
      by_cases hak : (a == k) = true
      · rw [if_pos hak] at hf
        simp only [Prod.mk.injEq] at hf
        exact Or.inr hf.1.symm
      · rw [if_neg hak] at hf
        simp only [Prod.mk.injEq] at hf
        exact Or.inl ⟨b, hf.1 ▸ hab⟩
    · rintro (⟨v, hv⟩ | rfl)
      · by_cases hkk : k' = k
        · subst hkk
          obtain ⟨⟨a, b⟩, hab, hak⟩ := List.any_eq_true.1 h
          refine ⟨v0, List.mem_map.2 ⟨(a, b), hab, ?_⟩⟩
          rw [if_pos hak]
        · refine ⟨v, List.mem_map.2 ⟨(k', v), hv, ?_⟩⟩
          rw [if_neg (by simpa using hkk)]
      · obtain ⟨⟨a, b⟩, hab, hak⟩ := List.any_eq_true.1 h
        refine ⟨v0, List.mem_map.2 ⟨(a, b), hab, ?_⟩⟩
        rw [if_pos hak]
  · rw [if_neg h]
    constructor
    · rintro ⟨v, hv⟩
      rcases List.mem_append.1 hv with h1 | h1
      · exact Or.inl ⟨v, h1⟩
      · simp only [List.mem_singleton, Prod.mk.injEq] at h1
        exact Or.inr h1.1
    · rintro (⟨v, hv⟩ | rfl)
      · exact ⟨v, List.mem_append.2 (Or.inl hv)⟩
      · exact ⟨v0, List.mem_append.2 (Or.inr (by simp))⟩

lemma mem_dinsert {m : List (String × String)} {k v0 : String} {e : String × String}
    (he : e ∈ dinsert m k v0) : e ∈ m ∨ e = (k, v0) := by
  unfold dinsert at he
  by_cases h : m.any (fun kv => kv.1 == k) = true
  · rw [if_pos h] at he
    obtain ⟨⟨a, b⟩, hab, hf⟩ := List.mem_map.1 he
    by_cases hak : (a == k) = true
    · rw [if_pos hak] at hf
      exact Or.inr hf.symm
    · rw [if_neg hak] at hf
      exact Or.inl (hf ▸ hab)
  · rw [if_neg h] at he
    rcases List.mem_append.1 he with h1 | h1
    · exact Or.inl h1
    · exact Or.inr (by simpa using h1)

lemma keys_dinsert_nodup {m : List (String × String)} {k v0 : String}
    (h : (m.map Prod.fst).Nodup) : ((dinsert m k v0).map Prod.fst).Nodup := by
  unfold dinsert
  by_cases hk : m.any (fun kv => kv.1 == k) = true
  · rw [if_pos hk]
    have hmap : (m.map (fun kv => if kv.1 == k then (k, v0) else kv)).map Prod.fst
        = m.map Prod.fst := by
      rw [List.map_map]
      refine List.map_congr_left ?_
      intro kv _
      by_cases hb : kv.1 = k
      · simp [hb]
      · simp [hb]
    rw [hmap]
    exact h
  · rw [if_neg hk]
    rw [List.map_append]
    refine List.Nodup.append h (by simp) ?_
    intro a ha hb
    simp only [List.map_cons, List.map_nil, List.mem_singleton] at hb
    subst hb
    obtain ⟨⟨x, y⟩, hxy, hx⟩ := List.mem_map.1 ha
    exact hk (List.any_eq_true.2 ⟨(x, y), hxy, by simpa using hx⟩)

lemma foldl_dinsert_keys (val : Nat × String → String) :
    ∀ (l : List (Nat × String)) (acc : List (String × String)) (k : String),
    (∃ v, (k, v) ∈ l.foldl (fun acc fp => dinsert acc fp.2 (val fp)) acc) ↔
      (∃ v, (k, v) ∈ acc) ∨ ∃ i, (i, k) ∈ l := by
  intro l
  induction l with
  | nil => intro acc k; simp
  | cons fp rest ih =>
      intro acc k
      obtain ⟨a, b⟩ := fp
      rw [List.foldl_cons, ih, mem_keys_dinsert]
      constructor
      · rintro ((h | rfl) | ⟨i, hi⟩)
        · exact Or.inl h
        · exact Or.inr ⟨a, by simp⟩
        · exact Or.inr ⟨i, List.mem_cons_of_mem _ hi⟩
      · rintro (h | ⟨i, hi⟩)
        · exact Or.inl (Or.inl h)
        · rcases List.mem_cons.1 hi with h1 | h1
          · simp only [Prod.mk.injEq] at h1
            exact Or.inl (Or.inr h1.2)
          · exact Or.inr ⟨i, h1⟩

lemma foldl_dinsert_values (val : Nat × String → String) (P : String × String → Prop)
    (hval : ∀ fp, P (fp.2, val fp)) :
    ∀ (l : List (Nat × String)) (acc : List (String × String)),
    (∀ e ∈ acc, P e) →
    ∀ e ∈ l.foldl (fun acc fp => dinsert acc fp.2 (val fp)) acc, P e := by
  intro l
  induction l with
  | nil => intro acc hacc e he; exact hacc e he
  | cons fp rest ih =>
      intro acc hacc e he
      rw [List.foldl_cons] at he
      refine ih _ ?_ e he
      intro q hq
      rcases mem_dinsert hq with h | h
      · exact hacc q h
      · exact h ▸ hval fp

lemma foldl_dinsert_nodup (val : Nat × String → String) :
    ∀ (l : List (Nat × String)) (acc : List (String × String)),
    (acc.map Prod.fst).Nodup →
    ((l.foldl (fun acc fp => dinsert acc fp.2 (val fp)) acc).map Prod.fst).Nodup := by
  intro l
  induction l with
  | nil => intro acc h; exact h
  | cons fp rest ih =>
      intro acc h
      rw [List.foldl_cons]
      exact ih _ (keys_dinsert_nodup h)

lemma gpdp_keys_iff (packages : List Record)
    (exec : Nat → List String → ProcResult) (raises : Nat → Bool)
    (completed : List (Nat × String))
    (hc : completed.Perm (future_to_package packages)) (k : String) :
    (∃ v, (k, v) ∈ get_package_descriptions_parallel exec raises completed) ↔
      k ∈ packages.map (fun p => fieldD p "name") := by
  have h1 : (∃ v, (k, v) ∈ get_package_descriptions_parallel exec raises completed) ↔
      (∃ v, (k, v) ∈ ([] : List (String × String))) ∨ ∃ i, (i, k) ∈ completed :=
    foldl_dinsert_keys
      (fun fp => if raises fp.1 then sentinel
        else get_package_description fp.2 (exec fp.1)) completed [] k
  rw [h1]
  simp only [List.not_mem_nil, exists_false, false_or]
  constructor
  · rintro ⟨i, hi⟩
    exact (mem_f2pAux (packages.map (fun p => fieldD p "name")) 0).1
      ⟨i, hc.mem_iff.1 hi⟩
  · intro hk
    obtain ⟨i, hi⟩ := (mem_f2pAux (packages.map (fun p => fieldD p "name")) 0).2 hk
    exact ⟨i, hc.mem_iff.2 hi⟩

lemma update_packages_eq (g : Bool) (exec : List String → ProcResult) :
    ∀ (pkgs : List Record),
    (∀ p ∈ pkgs, (lookupField p "name").isSome ∧ (lookupField p "latest_version").isSome) →
    update_packages pkgs g exec = some
      (pkgs.map (fun p => buildCmd ["install", "--upgrade"] g
        [fieldD p "name" ++ "==" ++ fieldD p "latest_version"]),
       pkgs.map (fun p =>
         if (exec (buildCmd ["install", "--upgrade"] g
             [fieldD p "name" ++ "==" ++ fieldD p "latest_version"])).exitCode = 0
         then ProgressEvent.advance
         else ProgressEvent.failDesc ("Failed to update " ++ fieldD p "name"))) := by
  intro pkgs
  induction pkgs with
  | nil => intro _; rfl
  | cons p rest ih =>
      intro h
      obtain ⟨hn, hv⟩ := h p (List.mem_cons_self p rest)
      obtain ⟨nm, hnm⟩ := Option.isSome_iff_exists.1 hn
      obtain ⟨ver, hver⟩ := Option.isSome_iff_exists.1 hv
      have hrest := ih (fun q hq => h q (List.mem_cons_of_mem p hq))
      have hfn : fieldD p "name" = nm := by simp [fieldD, hnm]
      have hfv : fieldD p "latest_version" = ver := by simp [fieldD, hver]
      simp only [update_packages, hnm, hver, Option.bind_eq_bind, Option.some_bind,
        hrest, List.map_cons, hfn, hfv]
      unfold run_pip_command
      by_cases hex :
          (exec (buildCmd ["install", "--upgrade"] g [nm ++ "==" ++ ver])).exitCode = 0
      · simp [hex]
      · simp [hex]

lemma restoreLoop_eq (exec : List String → ProcResult) :
    ∀ (pkgs : List Record),
    (∀ p ∈ pkgs, (lookupField p "name").isSome ∧ (lookupField p "version").isSome) →
    restoreLoop pkgs exec = some
      (pkgs.map (fun p => buildCmd ["install"] true
        [fieldD p "name" ++ "==" ++ fieldD p "version"]),
       pkgs.map (fun p =>
         if (exec (buildCmd ["install"] true
             [fieldD p "name" ++ "==" ++ fieldD p "version"])).exitCode = 0
         then ProgressEvent.advance
         else ProgressEvent.failDesc ("Failed to restore " ++ fieldD p "name"))) := by
  intro pkgs
  induction pkgs with
  | nil => intro _; rfl
  | cons p rest ih =>
      intro h
      obtain ⟨hn, hv⟩ := h p (List.mem_cons_self p rest)
      obtain ⟨nm, hnm⟩ := Option.isSome_iff_exists.1 hn
      obtain ⟨ver, hver⟩ := Option.isSome_iff_exists.1 hv
      have hrest := ih (fun q hq => h q (List.mem_cons_of_mem p hq))
      have hfn : fieldD p "name" = nm := by simp [fieldD, hnm]
      have hfv : fieldD p "version" = ver := by simp [fieldD, hver]
      simp only [restoreLoop, hnm, hver, Option.bind_eq_bind, Option.some_bind,
        hrest, List.map_cons, hfn, hfv]
      unfold run_pip_command
      by_cases hex : (exec (buildCmd ["install"] true [nm ++ "==" ++ ver])).exitCode = 0
      · simp [hex]
      · simp [hex]

lemma mem_project_filter (reqs : List Req) (l : List Record) (p : Record) :
    (p ∈ l.filter (fun q =>
        (reqs.map (fun r => r.name.toLower)).contains (fieldD q "name").toLower)) ↔
      p ∈ l ∧ ∃ r ∈ reqs, r.name.toLower = (fieldD p "name").toLower := by
  rw [List.mem_filter]
  simp only [List.contains_eq_any_beq, List.any_eq_true, List.mem_map, beq_iff_eq]
  constructor
  · rintro ⟨hp, x, ⟨r, hr, rfl⟩, hx⟩
    exact ⟨hp, r, hr, hx.symm⟩
  · rintro ⟨hp, r, hr, hx⟩
    exact ⟨hp, r.name.toLower, ⟨r, hr, rfl⟩, hx.symm⟩

/-! ### Claim theorems -/

/-- C1 counterexample: the claim says the persisted snapshot's elements carry
exactly the name and version fields, with description stripped before writing.
On a concrete record with a description field, the snapshot written by
`create_backup` contains the record with its description field intact, so its
field list is not the claimed two-field list. -/
theorem c1_counterexample :
    FS.readFile
      (create_backup ⟨[], []⟩ "20240101_120000"
        [[("name", "requests"), ("version", "2.31.0"),
          ("description", "HTTP library")]] false).1
      (backupPath "20240101_120000") =
      some [[("name", "requests"), ("version", "2.31.0"),
        ("description", "HTTP library")]] ∧
    ¬ (([("name", "requests"), ("version", "2.31.0"),
        ("description", "HTTP library")] : Record).map Prod.fst =
      ["name", "version"]) := by
  constructor
  · decide
  · decide

/-- C1 (amended): for every non-empty sequence of package records passed to
`create_backup` (with the write succeeding), the persisted snapshot file
contains a JSON array with one element per record, each element carrying all of
that record's fields unchanged — name and version included — with nothing
(in particular not the description or latest-version fields) stripped before
writing. -/
theorem c1_snapshot_is_full_records (fs : FS) (ts : String) (packages : List Record)
    (hne : packages ≠ []) :
    (create_backup fs ts packages false).2 = some (backupPath ts) ∧
    FS.readFile (create_backup fs ts packages false).1 (backupPath ts) =
      some packages := by
  have hemp : packages.isEmpty = false := by
    cases packages with
    | nil => exact absurd rfl hne
    | cons a l => rfl
  unfold create_backup
  rw [hemp]
  simp [FS.readFile]

/-- C1 witness: the amended theorem applied to a concrete one-record list
whose record carries name, version and description fields. -/
theorem c1_snapshot_is_full_records_witness :
    (create_backup ⟨["package_backups"], []⟩ "20240102_000000"
      [[("name", "flask"), ("version", "2.3.0"), ("description", "web framework")]]
      false).2 = some (backupPath "20240102_000000") ∧
    FS.readFile
      (create_backup ⟨["package_backups"], []⟩ "20240102_000000"
        [[("name", "flask"), ("version", "2.3.0"), ("description", "web framework")]]
        false).1 (backupPath "20240102_000000") =
      some [[("name", "flask"), ("version", "2.3.0"),
        ("description", "web framework")]] :=
  c1_snapshot_is_full_records ⟨["package_backups"], []⟩ "20240102_000000"
    [[("name", "flask"), ("version", "2.3.0"), ("description", "web framework")]]
    (by decide)

/-- C2: backup/restore round-trip.  For every non-empty sequence of package
records (each with name and version fields, other fields arbitrary),
`create_backup` persists the sequence at the returned path, and restoring that
file issues exactly one `pip install name==version` invocation per record, in
order, using precisely that record's name and version — independent of any
description or latest-version fields the records carry. -/
theorem c2_backup_restore_roundtrip (fs : FS) (ts : String) (rs : List Record)
    (exec : List String → ProcResult) (hne : rs ≠ [])
    (hkeys : ∀ r ∈ rs, (lookupField r "name").isSome ∧ (lookupField r "version").isSome) :
    (create_backup fs ts rs false).2 = some (backupPath ts) ∧
    restore_packages (FS.readFile (create_backup fs ts rs false).1 (backupPath ts))
        exec =
      some (true,
        rs.map (fun r => buildCmd ["install"] true
          [fieldD r "name" ++ "==" ++ fieldD r "version"]),
        rs.map (fun r =>
          if (exec (buildCmd ["install"] true
              [fieldD r "name" ++ "==" ++ fieldD r "version"])).exitCode = 0
          then ProgressEvent.advance
          else ProgressEvent.failDesc ("Failed to restore " ++ fieldD r "name"))) := by
  have hemp : rs.isEmpty = false := by
    cases rs with
    | nil => exact absurd rfl hne
    | cons a l => rfl
  have hread : FS.readFile (create_backup fs ts rs false).1 (backupPath ts) = some rs := by
    unfold create_backup
    rw [hemp]
    simp [FS.readFile]
  refine ⟨?_, ?_⟩
  · unfold create_backup
    rw [hemp]
    simp
  · rw [hread]
    have hstep : restore_packages (some rs) exec =
        Option.map (fun te => (true, te.1, te.2)) (restoreLoop rs exec) := rfl
    rw [hstep, restoreLoop_eq exec rs hkeys]
    rfl

/-- C2 witness: the round-trip theorem at a concrete two-record list whose
records also carry description and latest-version fields. -/
theorem c2_backup_restore_roundtrip_witness :
    (create_backup ⟨[], []⟩ "20240103_090000"
      [[("name", "requests"), ("version", "2.0.0"), ("description", "HTTP library"),
        ("latest_version", "2.31.0")],
       [("name", "numpy"), ("version", "1.2.0")]] false).2 =
      some (backupPath "20240103_090000") ∧
    restore_packages
        (FS.readFile
          (create_backup ⟨[], []⟩ "20240103_090000"
            [[("name", "requests"), ("version", "2.0.0"),
              ("description", "HTTP library"), ("latest_version", "2.31.0")],
             [("name", "numpy"), ("version", "1.2.0")]] false).1
          (backupPath "20240103_090000"))
        (fun _ => ⟨0, "ok", ""⟩) =
      some (true,
        [[("name", "requests"), ("version", "2.0.0"), ("description", "HTTP library"),
          ("latest_version", "2.31.0")],
         [("name", "numpy"), ("version", "1.2.0")]].map (fun r => buildCmd ["install"] true
          [fieldD r "name" ++ "==" ++ fieldD r "version"]),
        [[("name", "requests"), ("version", "2.0.0"), ("description", "HTTP library"),
          ("latest_version", "2.31.0")],
         [("name", "numpy"), ("version", "1.2.0")]].map (fun r =>
          if ((fun (_ : List String) => (⟨0, "ok", ""⟩ : ProcResult))
              (buildCmd ["install"] true
                [fieldD r "name" ++ "==" ++ fieldD r "version"])).exitCode = 0
          then ProgressEvent.advance
          else ProgressEvent.failDesc ("Failed to restore " ++ fieldD r "name"))) :=
  c2_backup_restore_roundtrip ⟨[], []⟩ "20240103_090000"
    [[("name", "requests"), ("version", "2.0.0"), ("description", "HTTP library"),
      ("latest_version", "2.31.0")],
     [("name", "numpy"), ("version", "1.2.0")]]
    (fun _ => ⟨0, "ok", ""⟩) (by decide) (by decide)

/-- C10: calling `create_backup` with an empty package sequence creates the
backup directory when absent (and leaves the directory list unchanged when
present), writes no snapshot file (the file map is unchanged), and returns no
path — the failure result — so the invocation can mutate the filesystem while
producing no snapshot. -/
theorem c10_empty_backup (fs : FS) (ts : String) (w : Bool) :
    (create_backup fs ts [] w).2 = none ∧
    (create_backup fs ts [] w).1.files = fs.files ∧
    (create_backup fs ts [] w).1.dirs =
      (if fs.dirs.contains backupDirName then fs.dirs
       else backupDirName :: fs.dirs) ∧
    (create_backup fs ts [] w).1.dirs.contains backupDirName = true := by
  unfold create_backup
  by_cases h : backupDirName ∈ fs.dirs
  · simp [h]
  · simp [h]

/-- C3: for every input sequence of package records (duplicate names permitted)
and every completion order of the submitted futures, the mapping returned by
the concurrent fetch orchestrator has exactly one key per distinct input name —
a name is a key iff it occurs in the input, and the key list has no duplicates —
and every key is mapped either to a result of the metadata fetcher for that
name or to the sentinel; the orchestrator itself is a total function (every
per-future exception degrades to the sentinel), so it never fails. -/
theorem c3_orchestrator_mapping (packages : List Record)
    (exec : Nat → List String → ProcResult) (raises : Nat → Bool)
    (completed : List (Nat × String))
    (hc : completed.Perm (future_to_package packages)) :
    (∀ k, (∃ v, (k, v) ∈ get_package_descriptions_parallel exec raises completed) ↔
        k ∈ packages.map (fun p => fieldD p "name")) ∧
    ((get_package_descriptions_parallel exec raises completed).map Prod.fst).Nodup ∧
    (∀ k v, (k, v) ∈ get_package_descriptions_parallel exec raises completed →
        v = sentinel ∨ ∃ i, v = get_package_description k (exec i)) := by
  refine ⟨fun k => gpdp_keys_iff packages exec raises completed hc k, ?_, ?_⟩
  · exact foldl_dinsert_nodup
      (fun fp => if raises fp.1 then sentinel
        else get_package_description fp.2 (exec fp.1)) completed [] (by simp)
  · intro k v hv
    refine foldl_dinsert_values
      (fun fp => if raises fp.1 then sentinel
        else get_package_description fp.2 (exec fp.1))
      (fun e => e.2 = sentinel ∨ ∃ i, e.2 = get_package_description e.1 (exec i))
      ?_ completed [] (by simp) (k, v) hv
    intro fp
    by_cases h : raises fp.1 = true
    · exact Or.inl (by simp [h])
    · exact Or.inr ⟨fp.1, by simp [h]⟩

/-- C3 witness: the orchestrator theorem at a concrete three-record input with
a duplicate name, a completion order different from submission order, a failing
process oracle, and one future that raises. -/
theorem c3_orchestrator_mapping_witness :
    List.Perm [(2, "alpha"), (0, "alpha"), (1, "beta")]
      (future_to_package
        [[("name", "alpha")], [("name", "beta")], [("name", "alpha")]]) ∧
    (∀ k, (∃ v, (k, v) ∈ get_package_descriptions_parallel
        (fun _ _ => ⟨1, "", "boom"⟩) (fun i => i == 1)
        [(2, "alpha"), (0, "alpha"), (1, "beta")]) ↔
      k ∈ [[("name", "alpha")], [("name", "beta")],
        [("name", "alpha")]].map (fun p => fieldD p "name")) :=
  ⟨by decide,
    (c3_orchestrator_mapping
      [[("name", "alpha")], [("name", "beta")], [("name", "alpha")]]
      (fun _ _ => ⟨1, "", "boom"⟩) (fun i => i == 1)
      [(2, "alpha"), (0, "alpha"), (1, "beta")] (by decide)).1⟩

/-- C4 counterexample: the claim says the orchestrator submits exactly one
fetcher call per distinct name.  On a concrete two-record input with the same
name twice, the `future_to_package` comprehension performs two `executor.submit`
calls while there is one distinct name, so the counts differ. -/
theorem c4_counterexample :
    ¬ ((future_to_package [[("name", "alpha")], [("name", "alpha")]]).length =
      (([[("name", "alpha")], [("name", "alpha")]].map
        (fun p => fieldD p "name")).dedup).length) := by
  decide

/-- C4 (amended): the orchestrator submits exactly one metadata-fetcher call
per element of the input sequence — N submissions for N records, so duplicate
names do cause duplicate fetch invocations — while the returned mapping still
has exactly one key per distinct input name. -/
theorem c4_one_submission_per_element (packages : List Record)
    (exec : Nat → List String → ProcResult) (raises : Nat → Bool)
    (completed : List (Nat × String))
    (hc : completed.Perm (future_to_package packages)) :
    (future_to_package packages).length = packages.length ∧
    (∀ k, (∃ v, (k, v) ∈ get_package_descriptions_parallel exec raises completed) ↔
        k ∈ packages.map (fun p => fieldD p "name")) := by
  constructor
  · unfold future_to_package
    rw [f2pAux_length]
    exact List.length_map packages _
  · exact fun k => gpdp_keys_iff packages exec raises completed hc k

/-- C4 witness: the amended theorem at a concrete duplicate-name input, with
the futures completing in reverse order. -/
theorem c4_one_submission_per_element_witness :
    (future_to_package [[("name", "alpha")], [("name", "alpha")],
      [("name", "beta")]]).length = 3 ∧
    (∀ k, (∃ v, (k, v) ∈ get_package_descriptions_parallel
        (fun _ _ => ⟨1, "", "err"⟩) (fun _ => false)
        [(2, "beta"), (1, "alpha"), (0, "alpha")]) ↔
      k ∈ [[("name", "alpha")], [("name", "alpha")],
        [("name", "beta")]].map (fun p => fieldD p "name")) :=
  c4_one_submission_per_element
    [[("name", "alpha")], [("name", "alpha")], [("name", "beta")]]
    (fun _ _ => ⟨1, "", "err"⟩) (fun _ => false)
    [(2, "beta"), (1, "alpha"), (0, "alpha")] (by decide)

/-- C5: for every invocation of the process invoker `run_pip_command`, exactly
one external command is executed — a failure is surfaced immediately, with no
retry; when that command exits zero the result is its raw stdout with nothing
printed, and when it exits nonzero the result is the error value `None` with
the command's stderr carried in the printed diagnostic. -/
theorem c5_process_invoker (command args : List String) (g : Bool)
    (exec : List String → ProcResult) :
    (run_pip_command command args g exec).invoked = [buildCmd command g args] ∧
    ((exec (buildCmd command g args)).exitCode = 0 →
      (run_pip_command command args g exec).result =
        some (exec (buildCmd command g args)).stdout ∧
      (run_pip_command command args g exec).printed = []) ∧
    ((exec (buildCmd command g args)).exitCode ≠ 0 →
      (run_pip_command command args g exec).result = none ∧
      (run_pip_command command args g exec).printed =
        ["\nError executing pip command: " ++
          (exec (buildCmd command g args)).stderr]) := by
  by_cases h : (exec (buildCmd command g args)).exitCode = 0 <;>
    simp [run_pip_command, h]

/-- C5 witness: the process-invoker theorem at a concrete failing command,
showing the single invocation, the `None` result, and the stderr in the
diagnostic. -/
theorem c5_process_invoker_witness :
    (run_pip_command ["install"] ["left==1.0"] true
        (fun _ => ⟨1, "", "boom"⟩)).invoked = [buildCmd ["install"] true ["left==1.0"]] ∧
    (run_pip_command ["install"] ["left==1.0"] true
        (fun _ => ⟨1, "", "boom"⟩)).result = none ∧
    (run_pip_command ["install"] ["left==1.0"] true
        (fun _ => ⟨1, "", "boom"⟩)).printed =
      ["\nError executing pip command: " ++ "boom"] := by
  have h := c5_process_invoker ["install"] ["left==1.0"] true
    (fun _ => ⟨1, "", "boom"⟩)
  exact ⟨h.1, (h.2.2 (by decide)).1, (h.2.2 (by decide)).2⟩

/-- C6: the metadata fetcher `get_package_description` is a total function of
the process oracle — it never raises — and for every package name it returns
the extracted summary text exactly when the show-info invocation exits zero
with non-empty output containing a summary field, and the sentinel
`"No description available"` whenever the field is absent (the scan finds no
summary line), the output is empty, or the invocation errors. -/
theorem c6_metadata_fetcher (packageName : String)
    (exec : List String → ProcResult) :
    get_package_description packageName exec =
      (if (exec (buildCmd ["show"] true [packageName])).exitCode = 0 ∧
          (exec (buildCmd ["show"] true [packageName])).stdout ≠ "" then
        (summaryOf (exec (buildCmd ["show"] true [packageName])).stdout).getD sentinel
      else sentinel) := by
  unfold get_package_description run_pip_command
  by_cases h : (exec (buildCmd ["show"] true [packageName])).exitCode = 0
  · by_cases h2 : (exec (buildCmd ["show"] true [packageName])).stdout = ""
    · simp [h, h2]
    · cases hs : summaryOf (exec (buildCmd ["show"] true [packageName])).stdout with
      | none => simp [h, h2, hs]
      | some d => simp [h, h2, hs]
  · simp [h]

/-- C7: for every package list and outdated index, the rows rendered by
`display_version_table` decompose as all outdated rows followed by all
up-to-date rows: there are lists `outs` and `ups` of records such that the
table is the outdated-styled rows of `outs` followed by the plain rows of
`ups`, every record of `outs` has its name in the outdated index and no record
of `ups` does, and each of the two groups is ordered by package name compared
case-insensitively. -/
theorem c7_table_order (allPackages : List Record)
    (outdatedMap : List (String × Record)) :
    ∃ outs ups : List Record,
      display_version_table allPackages outdatedMap =
        outs.map (mkOutdatedRow outdatedMap) ++ ups.map mkUptodateRow ∧
      (∀ p ∈ outs, hasKeyR outdatedMap (fieldD p "name") = true) ∧
      (∀ p ∈ ups, hasKeyR outdatedMap (fieldD p "name") = false) ∧
      outs.Pairwise (fun a b => nameLower a ≤ nameLower b) ∧
      ups.Pairwise (fun a b => nameLower a ≤ nameLower b) := by
  by_cases h : allPackages.isEmpty
  · exact ⟨[], [], by simp [display_version_table, h], by simp, by simp,
      List.Pairwise.nil, List.Pairwise.nil⟩
  · have hsorted : (allPackages.mergeSort byNameLower).Pairwise
        (fun a b => nameLower a ≤ nameLower b) := by
      refine List.Pairwise.imp ?_ (List.sorted_mergeSort ?_ ?_ allPackages)
      · intro a b hab
        simpa [byNameLower] using hab
      · intro a b c hab hbc
        simp only [byNameLower, decide_eq_true_eq] at hab hbc ⊢
        exact le_trans hab hbc
      · intro a b
        simp only [byNameLower, Bool.or_eq_true, decide_eq_true_eq]
        exact le_total _ _
    refine ⟨(allPackages.mergeSort byNameLower).filter
        (fun p => hasKeyR outdatedMap (fieldD p "name")),
      (allPackages.mergeSort byNameLower).filter
        (fun p => !(hasKeyR outdatedMap (fieldD p "name"))),
      ?_, ?_, ?_, ?_, ?_⟩
    · simp [display_version_table, h]
    · intro p hp
      exact (List.mem_filter.1 hp).2
    · intro p hp
      simpa using (List.mem_filter.1 hp).2
    · exact List.Pairwise.filter _ hsorted
    · exact List.Pairwise.filter _ hsorted

/-- C8: a package appears in the output of `check_project_packages` exactly
when it is installed and some parsed requirement has the same lowercased name —
so a package whose name does not occur in the requirements file never appears,
and a package whose name occurs with any version constraint appears regardless
of whether the installed version satisfies the constraint: the right-hand side
mentions only requirement names, never constraints. -/
theorem c8_requirements_filter (lines : List String)
    (parseReq : String → Option Req)
    (allInstalled outdated : List Record) (p : Record) :
    p ∈ (((check_project_packages (parse_requirements_file lines parseReq)
        allInstalled outdated).map Prod.fst).getD []) ↔
      p ∈ allInstalled ∧ ∃ r ∈ parse_requirements_file lines parseReq,
        r.name.toLower = (fieldD p "name").toLower := by
  have hiff := mem_project_filter (parse_requirements_file lines parseReq)
    allInstalled p
  simp only [check_project_packages]
  by_cases h : (allInstalled.filter (fun q =>
      ((parse_requirements_file lines parseReq).map
        (fun r => r.name.toLower)).contains (fieldD q "name").toLower)).isEmpty
  · rw [if_pos h]
    have hempty := List.isEmpty_iff.1 h
    rw [hempty] at hiff
    simp only [List.not_mem_nil, false_iff] at hiff
    simp [hiff]
  · rw [if_neg h]
    simp

/-- C9: best-effort batches.  For every update batch and every restore batch
(each record carrying the keys the loop reads), a failure of the install
command for one package does not abort the batch: the invocation trace covers
every record in order whatever the process oracle answers, and a failure is
reported only as a failure-description progress event in place of an advance. -/
theorem c9_failures_do_not_abort (pkgs rss : List Record) (g : Bool)
    (exec exec2 : List String → ProcResult)
    (h1 : ∀ p ∈ pkgs, (lookupField p "name").isSome ∧
      (lookupField p "latest_version").isSome)
    (h2 : ∀ p ∈ rss, (lookupField p "name").isSome ∧
      (lookupField p "version").isSome) :
    update_packages pkgs g exec = some
      (pkgs.map (fun p => buildCmd ["install", "--upgrade"] g
        [fieldD p "name" ++ "==" ++ fieldD p "latest_version"]),
       pkgs.map (fun p =>
         if (exec (buildCmd ["install", "--upgrade"] g
             [fieldD p "name" ++ "==" ++ fieldD p "latest_version"])).exitCode = 0
         then ProgressEvent.advance
         else ProgressEvent.failDesc ("Failed to update " ++ fieldD p "name"))) ∧
    restore_packages (some rss) exec2 = some
      (true,
       rss.map (fun p => buildCmd ["install"] true
         [fieldD p "name" ++ "==" ++ fieldD p "version"]),
       rss.map (fun p =>
         if (exec2 (buildCmd ["install"] true
             [fieldD p "name" ++ "==" ++ fieldD p "version"])).exitCode = 0
         then ProgressEvent.advance
         else ProgressEvent.failDesc ("Failed to restore " ++ fieldD p "name"))) := by
  refine ⟨update_packages_eq g exec pkgs h1, ?_⟩
  have hstep : restore_packages (some rss) exec2 =
      Option.map (fun te => (true, te.1, te.2)) (restoreLoop rss exec2) := rfl
  rw [hstep, restoreLoop_eq exec2 rss h2]
  rfl

/-- C9 witness: the best-effort theorem at concrete two-record batches with a
process oracle that fails the first package's install command and succeeds on
the second. -/
theorem c9_failures_do_not_abort_witness :
    update_packages [[("name", "alpha"), ("latest_version", "2.0")],
        [("name", "beta"), ("latest_version", "3.0")]] true
      (fun c => if c = buildCmd ["install", "--upgrade"] true
          ["alpha" ++ "==" ++ "2.0"] then ⟨1, "", "fail"⟩ else ⟨0, "", ""⟩) = some
      ([[("name", "alpha"), ("latest_version", "2.0")],
        [("name", "beta"), ("latest_version", "3.0")]].map
        (fun p => buildCmd ["install", "--upgrade"] true
          [fieldD p "name" ++ "==" ++ fieldD p "latest_version"]),
       [[("name", "alpha"), ("latest_version", "2.0")],
        [("name", "beta"), ("latest_version", "3.0")]].map
        (fun p =>
         if (((fun c => if c = buildCmd ["install", "--upgrade"] true
             ["alpha" ++ "==" ++ "2.0"] then (⟨1, "", "fail"⟩ : ProcResult)
             else ⟨0, "", ""⟩)) (buildCmd ["install", "--upgrade"] true
             [fieldD p "name" ++ "==" ++ fieldD p "latest_version"])).exitCode = 0
         then ProgressEvent.advance
         else ProgressEvent.failDesc ("Failed to update " ++ fieldD p "name"))) ∧
    restore_packages (some [[("name", "gamma"), ("version", "1.0")],
        [("name", "delta"), ("version", "1.5")]])
      (fun c => if c = buildCmd ["install"] true ["gamma" ++ "==" ++ "1.0"]
        then ⟨1, "", "fail"⟩ else ⟨0, "", ""⟩) = some
      (true,
       [[("name", "gamma"), ("version", "1.0")],
        [("name", "delta"), ("version", "1.5")]].map
        (fun p => buildCmd ["install"] true
          [fieldD p "name" ++ "==" ++ fieldD p "version"]),
       [[("name", "gamma"), ("version", "1.0")],
        [("name", "delta"), ("version", "1.5")]].map
        (fun p =>
         if (((fun c => if c = buildCmd ["install"] true ["gamma" ++ "==" ++ "1.0"]
             then (⟨1, "", "fail"⟩ : ProcResult) else ⟨0, "", ""⟩))
             (buildCmd ["install"] true
               [fieldD p "name" ++ "==" ++ fieldD p "version"])).exitCode = 0
         then ProgressEvent.advance
         else ProgressEvent.failDesc ("Failed to restore " ++ fieldD p "name"))) :=
  c9_failures_do_not_abort
    [[("name", "alpha"), ("latest_version", "2.0")],
     [("name", "beta"), ("latest_version", "3.0")]]
    [[("name", "gamma"), ("version", "1.0")],
     [("name", "delta"), ("version", "1.5")]] true
    (fun c => if c = buildCmd ["install", "--upgrade"] true
        ["alpha" ++ "==" ++ "2.0"] then ⟨1, "", "fail"⟩ else ⟨0, "", ""⟩)
    (fun c => if c = buildCmd ["install"] true ["gamma" ++ "==" ++ "1.0"]
      then ⟨1, "", "fail"⟩ else ⟨0, "", ""⟩)
    (by decide) (by decide)

end CheckVersions
